import Mathlib

/-!
Formal model of the EEPROM emulation library for the CH32V003 (EEPROM.c /
EEPROM.h).  The flash region starting at EEPROM_ADDRESS is modelled as a
function from half-word offsets to half-word values: byte address
EEPROM_ADDRESS + 2*i is offset i.  Offset 0 holds the marker, offset 1 the
reserved half-word, and entry slot i occupies offsets 2+3*i (Id), 3+3*i
(Value) and 4+3*i (CRC), mirroring the byte layout of EEPROM.c (entries of
6 bytes starting at EEPROM_ADDRESS + 4).

The fallible flash primitives (page erase inside EEPROM_format, and the
half-word program + verify inside EEPROM_writeHalfWord) are driven by a
fault oracle, a list of Booleans consumed one per primitive call: true (or
an exhausted list) means the call succeeds, false means it fails (timeout
or readback mismatch), in which case the primitive reports EEPROM_ERROR and
the region is left as it was.  The empty oracle therefore models a run in
which no flash primitive fails.
-/

/-- The flash region: half-word offset to stored half-word.  An erased cell
reads 0xFFFF. -/
def Flash : Type := Nat → Nat

/-- Fault oracle for the fallible flash primitives. -/
abbrev Oracle : Type := List Bool

/-- Status code EEPROM_OK from EEPROM.h. -/
def EEPROM_OK : Nat := 0

/-- Status code EEPROM_ERROR from EEPROM.h. -/
def EEPROM_ERROR : Nat := 1

/-- The initialized-region marker 0x5A5A from EEPROM.c. -/
def EEPROM_MARKER : Nat := 0x5A5A

/-- Read the half-word at an offset (a volatile uint16 load in EEPROM.c). -/
def readHW (f : Flash) (i : Nat) : Nat := f i

/-- The effect on the region of a successful half-word program. -/
def writeHWmem (f : Flash) (i v : Nat) : Flash :=
  fun j => if j = i then v else f j

/-- A fully erased region: every cell reads 0xFFFF. -/
def erasedFlash : Flash := fun _ => 0xFFFF

/-- Consume one fault-oracle entry; an exhausted oracle means success. -/
def nextFault (o : Oracle) : Bool × Oracle := (o.headD true, o.tail)

/-- EEPROM_calcCRC from EEPROM.c: the bitwise xor of id and value. -/
def EEPROM_calcCRC (id value : Nat) : Nat := Nat.xor id value

/-- EEPROM_format from EEPROM.c: erase the page and verify that the first
half-word reads back erased.  On success the whole region is erased; on a
primitive failure (timeout or verify mismatch) it reports EEPROM_ERROR. -/
def EEPROM_format (f : Flash) (o : Oracle) : Nat × Flash × Oracle :=
  let p := nextFault o
  if p.1 then (EEPROM_OK, erasedFlash, p.2) else (EEPROM_ERROR, f, p.2)

/-- EEPROM_writeHalfWord from EEPROM.c: program one half-word and verify the
readback.  On success the cell holds the data; on failure EEPROM_ERROR. -/
def EEPROM_writeHalfWord (i data : Nat) (f : Flash) (o : Oracle) :
    Nat × Flash × Oracle :=
  let p := nextFault o
  if p.1 then (EEPROM_OK, writeHWmem f i data, p.2) else (EEPROM_ERROR, f, p.2)

/-- EEPROM_isInitialized from EEPROM.c: the marker half-word equals 0x5A5A. -/
def EEPROM_isInitialized (f : Flash) : Bool :=
  readHW f 0 == EEPROM_MARKER

/-- The scan loop of EEPROM_findVar: at most `n` slots starting at offset
`off`, stopping at the first slot whose Id half-word is 0xFFFF, returning
the offset of the first entry whose low 8 Id bits match `id` and whose CRC
half-word equals calcCRC(Id, Value). -/
def findVarLoop (id : Nat) (f : Flash) : Nat → Nat → Option Nat
  | _, 0 => none
  | off, n+1 =>
    let entryId := readHW f off
    if entryId = 0xFFFF then none
    else
      let entryValue := readHW f (off+1)
      let entryCRC := readHW f (off+2)
      if entryId % 256 = id ∧ entryCRC = EEPROM_calcCRC entryId entryValue then
        some off
      else findVarLoop id f (off+3) n

/-- EEPROM_findVar from EEPROM.c (offset of the found entry instead of its
byte address): not-found immediately when uninitialized, otherwise the scan
loop over at most 10 slots starting at offset 2. -/
def EEPROM_findVar (id : Nat) (f : Flash) : Option Nat :=
  if EEPROM_isInitialized f then findVarLoop id f 2 10 else none

/-- EEPROM_readVar from EEPROM.c: the Value half-word of the found entry, or
0xFFFF when not found. -/
def EEPROM_readVar (id : Nat) (f : Flash) : Nat :=
  match EEPROM_findVar id f with
  | some a => readHW f (a+1)
  | none => 0xFFFF

/-- EEPROM_varExists from EEPROM.c: whether EEPROM_findVar succeeds. -/
def EEPROM_varExists (id : Nat) (f : Flash) : Bool :=
  (EEPROM_findVar id f).isSome

/-- The collection loop of EEPROM_saveVar: gather (low-8-bit id, value) for
every scanned entry that does not match the target id and passes the CRC
check, stopping at the first erased Id half-word, at most `n` slots. -/
def scanLoop (id : Nat) (f : Flash) : Nat → Nat → List (Nat × Nat)
  | _, 0 => []
  | off, n+1 =>
    let entryId := readHW f off
    if entryId = 0xFFFF then []
    else
      let entryValue := readHW f (off+1)
      let entryCRC := readHW f (off+2)
      if entryId % 256 = id then scanLoop id f (off+3) n
      else if entryCRC = EEPROM_calcCRC entryId entryValue then
        (entryId % 256, entryValue) :: scanLoop id f (off+3) n
      else scanLoop id f (off+3) n

/-- The collection loop of EEPROM_saveVars: gather every scanned entry that
passes the CRC check and whose low-8-bit id is not in the new id list. -/
def scanLoopMulti (newIds : List Nat) (f : Flash) : Nat → Nat → List (Nat × Nat)
  | _, 0 => []
  | off, n+1 =>
    let entryId := readHW f off
    if entryId = 0xFFFF then []
    else
      let entryValue := readHW f (off+1)
      let entryCRC := readHW f (off+2)
      if entryCRC = EEPROM_calcCRC entryId entryValue then
        if newIds.contains (entryId % 256) then
          scanLoopMulti newIds f (off+3) n
        else (entryId % 256, entryValue) :: scanLoopMulti newIds f (off+3) n
      else scanLoopMulti newIds f (off+3) n

/-- The append loop of EEPROM_saveVars: push new pairs while the working set
holds fewer than 10 entries; once it reaches 10 the remaining pairs are
dropped (the "prevent overflow" break). -/
def appendLoop (vars : List (Nat × Nat)) : List (Nat × Nat) → List (Nat × Nat)
  | [] => vars
  | p :: rest =>
    if 10 ≤ vars.length then vars else appendLoop (vars ++ [p]) rest

/-- The rewrite loop shared by EEPROM_saveVar and EEPROM_saveVars: write each
working-set entry as three half-words (Id, Value, CRC), aborting with the
failing status as soon as one EEPROM_writeHalfWord call fails. -/
def writeEntriesLoop (off : Nat) (vars : List (Nat × Nat)) (f : Flash)
    (o : Oracle) : Nat × Flash × Oracle :=
  match vars with
  | [] => (EEPROM_OK, f, o)
  | (vid, vval) :: rest =>
    let r1 := EEPROM_writeHalfWord off vid f o
    if r1.1 ≠ EEPROM_OK then r1 else
    let r2 := EEPROM_writeHalfWord (off+1) vval r1.2.1 r1.2.2
    if r2.1 ≠ EEPROM_OK then r2 else
    let r3 := EEPROM_writeHalfWord (off+2) (EEPROM_calcCRC vid vval) r2.2.1 r2.2.2
    if r3.1 ≠ EEPROM_OK then r3 else
    writeEntriesLoop (off+3) rest r3.2.1 r3.2.2

/-- The erase-and-rewrite tail shared by EEPROM_saveVar and EEPROM_saveVars:
format, write marker and reserved, then write all working-set entries. -/
def rewriteAll (vars : List (Nat × Nat)) (f : Flash) (o : Oracle) :
    Nat × Flash × Oracle :=
  let r1 := EEPROM_format f o
  if r1.1 ≠ EEPROM_OK then r1 else
  let r2 := EEPROM_writeHalfWord 0 EEPROM_MARKER r1.2.1 r1.2.2
  if r2.1 ≠ EEPROM_OK then r2 else
  let r3 := EEPROM_writeHalfWord 1 0 r2.2.1 r2.2.2
  if r3.1 ≠ EEPROM_OK then r3 else
  writeEntriesLoop 2 vars r3.2.1 r3.2.2

/-- EEPROM_saveVar from EEPROM.c.  When initialized, collect the surviving
entries, append the new pair (with no capacity check, exactly as in the
source) and erase-rewrite; when uninitialized, format and write the header
first, then erase-rewrite the single new pair. -/
def EEPROM_saveVar (id value : Nat) (f : Flash) (o : Oracle) :
    Nat × Flash × Oracle :=
  if EEPROM_isInitialized f then
    rewriteAll (scanLoop id f 2 10 ++ [(id, value)]) f o
  else
    let r1 := EEPROM_format f o
    if r1.1 ≠ EEPROM_OK then r1 else
    let r2 := EEPROM_writeHalfWord 0 EEPROM_MARKER r1.2.1 r1.2.2
    if r2.1 ≠ EEPROM_OK then r2 else
    let r3 := EEPROM_writeHalfWord 1 0 r2.2.1 r2.2.2
    if r3.1 ≠ EEPROM_OK then r3 else
    rewriteAll ([] ++ [(id, value)]) r3.2.1 r3.2.2

/-- EEPROM_saveVars from EEPROM.c.  The first `count` elements of `ids` and
`values` are the new pairs; surviving entries are those passing the CRC
check whose low-8-bit id is in none of the new ids, and the new pairs are
appended with the capacity-10 break. -/
def EEPROM_saveVars (ids values : List Nat) (count : Nat) (f : Flash)
    (o : Oracle) : Nat × Flash × Oracle :=
  if EEPROM_isInitialized f then
    rewriteAll
      (appendLoop (scanLoopMulti (ids.take count) f 2 10)
        ((ids.take count).zip (values.take count))) f o
  else
    let r1 := EEPROM_format f o
    if r1.1 ≠ EEPROM_OK then r1 else
    let r2 := EEPROM_writeHalfWord 0 EEPROM_MARKER r1.2.1 r1.2.2
    if r2.1 ≠ EEPROM_OK then r2 else
    let r3 := EEPROM_writeHalfWord 1 0 r2.2.1 r2.2.2
    if r3.1 ≠ EEPROM_OK then r3 else
    rewriteAll (appendLoop [] ((ids.take count).zip (values.take count)))
      r3.2.1 r3.2.2

/-- The working set assembled by EEPROM_saveVar before its rewrite phase. -/
def saveVarVars (id value : Nat) (f : Flash) : List (Nat × Nat) :=
  (if EEPROM_isInitialized f then scanLoop id f 2 10 else []) ++ [(id, value)]

/-- The working set assembled by EEPROM_saveVars before its rewrite phase. -/
def saveVarsVars (ids values : List Nat) (count : Nat) (f : Flash) :
    List (Nat × Nat) :=
  appendLoop
    (if EEPROM_isInitialized f then scanLoopMulti (ids.take count) f 2 10
     else [])
    ((ids.take count).zip (values.take count))

/-- Sequential half-word writes starting at an offset (the cumulative memory
effect of a successful rewrite phase). -/
def multiWrite (f : Flash) : Nat → List Nat → Flash
  | _, [] => f
  | i, v :: rest => multiWrite (writeHWmem f i v) (i+1) rest

/-- The flat half-word stream the rewrite loop programs for a working set:
Id, Value, CRC for each entry in order. -/
def flatPairs : List (Nat × Nat) → List Nat
  | [] => []
  | (a, b) :: rest => a :: b :: EEPROM_calcCRC a b :: flatPairs rest

/-- The region right after format + marker + reserved, before any entry. -/
def headerFlash : Flash :=
  writeHWmem (writeHWmem erasedFlash 0 EEPROM_MARKER) 1 0

/-- The region a fully successful save leaves behind for a working set. -/
def writtenFlash (vars : List (Nat × Nat)) : Flash :=
  multiWrite headerFlash 2 (flatPairs vars)

/-- The triple of half-words of entry slot `i` (Id, Value, CRC). -/
def slotTriple (f : Flash) (i : Nat) : Nat × Nat × Nat :=
  (readHW f (2+3*i), readHW f (2+3*i+1), readHW f (2+3*i+2))

/-- Modelled from the spec of Lookup: the sequence of entry slots the scan
visits, namely slots 0 upward, at most 10, up to the first slot whose Id
half-word is the erased sentinel 0xFFFF. -/
def scannedSlots (f : Flash) : List (Nat × Nat × Nat) :=
  ((List.range 10).map (slotTriple f)).takeWhile (fun e => !(e.1 == 0xFFFF))

/-- An entry triple whose CRC half-word matches calcCRC(Id, Value). -/
def entryValid (e : Nat × Nat × Nat) : Bool :=
  e.2.2 == EEPROM_calcCRC e.1 e.2.1

/-- An entry triple matching a requested id: low 8 Id bits agree and the
CRC checks out. -/
def entryMatches (id : Nat) (e : Nat × Nat × Nat) : Bool :=
  (e.1 % 256 == id) && entryValid e

/-- Index of the first element satisfying a predicate. -/
def findIdxSpec {α : Type} (p : α → Bool) : List α → Option Nat
  | [] => none
  | a :: l => if p a then some 0 else (findIdxSpec p l).map (· + 1)

/-- Modelled from the spec: the live entries of a region — the scanned
entries passing the CRC check — as (low-8-bit id, value) pairs. -/
def scanValidList (f : Flash) : List (Nat × Nat) :=
  ((scannedSlots f).filter entryValid).map (fun e => (e.1 % 256, e.2.1))

/-- The low-8-bit identifiers of the live entries of a region. -/
def liveLowIds (f : Flash) : List Nat :=
  (scanValidList f).map Prod.fst

/-- A volatile half-word load, threading the region state through so that
the absence of stores is visible in the type. -/
def readHW_st (i : Nat) (f : Flash) : Nat × Flash := (f i, f)

/-- EEPROM_isInitialized with the region state threaded through. -/
def EEPROM_isInitialized_st (f : Flash) : Bool × Flash :=
  let r := readHW_st 0 f
  (r.1 == EEPROM_MARKER, r.2)

/-- The scan loop of EEPROM_findVar with the region state threaded. -/
def findVarLoop_st (id : Nat) : Nat → Nat → Flash → Option Nat × Flash
  | _, 0, f => (none, f)
  | off, n+1, f =>
    let r := readHW_st off f
    if r.1 = 0xFFFF then (none, r.2)
    else
      let rv := readHW_st (off+1) r.2
      let rc := readHW_st (off+2) rv.2
      if r.1 % 256 = id ∧ rc.1 = EEPROM_calcCRC r.1 rv.1 then (some off, rc.2)
      else findVarLoop_st id (off+3) n rc.2

/-- EEPROM_findVar with the region state threaded. -/
def EEPROM_findVar_st (id : Nat) (f : Flash) : Option Nat × Flash :=
  let r := EEPROM_isInitialized_st f
  if r.1 then findVarLoop_st id 2 10 r.2 else (none, r.2)

/-- EEPROM_readVar with the region state threaded. -/
def EEPROM_readVar_st (id : Nat) (f : Flash) : Nat × Flash :=
  match EEPROM_findVar_st id f with
  | (some a, f') => readHW_st (a+1) f'
  | (none, f') => (0xFFFF, f')

/-- EEPROM_varExists with the region state threaded. -/
def EEPROM_varExists_st (id : Nat) (f : Flash) : Bool × Flash :=
  let r := EEPROM_findVar_st id f
  (r.1.isSome, r.2)


/-- A region produced by saving ten distinct variables (ids 0..9, values
100..109) through EEPROM_saveVars starting from an erased region: the
working set is then at full capacity. -/
def f10c : Flash :=
  (EEPROM_saveVars (List.range 10) ((List.range 10).map (fun i => 100+i)) 10
    erasedFlash []).2.1

/-- The region after saveVars([1,2,3],[10,20,30],3) from an erased region. -/
def c3f1 : Flash := (EEPROM_saveVars [1,2,3] [10,20,30] 3 erasedFlash []).2.1

/-- The region after a further saveVars([2],[99],1). -/
def c3f2 : Flash := (EEPROM_saveVars [2] [99] 1 c3f1 []).2.1

/-- A region holding the single variable (3, 7). -/
def c6base : Flash := (EEPROM_saveVar 3 7 erasedFlash []).2.1

theorem readHW_write (f : Flash) (i v j : Nat) :
    readHW (writeHWmem f i v) j = if j = i then v else readHW f j := rfl

theorem multiWrite_read (l : List Nat) : ∀ (f : Flash) (i j : Nat),
    readHW (multiWrite f i l) j =
      if i ≤ j ∧ j < i + l.length then l.getD (j - i) 0 else readHW f j := by
  induction l with
  | nil =>
    intro f i j
    simp only [multiWrite, List.length_nil, Nat.add_zero]
    rw [if_neg (by omega)]
  | cons v rest ih =>
    intro f i j
    rw [multiWrite, ih]
    by_cases h1 : i + 1 ≤ j ∧ j < i + 1 + rest.length
    · rw [if_pos h1, if_pos (by simp only [List.length_cons]; omega)]
      have hji : j - i = (j - (i+1)) + 1 := by omega
      rw [hji, List.getD_cons_succ]
    · rw [if_neg h1, readHW_write]
      by_cases h2 : j = i
      · subst h2
        rw [if_pos rfl, if_pos (by simp only [List.length_cons]; omega)]
        simp
      · rw [if_neg h2, if_neg (by simp only [List.length_cons]; omega)]

theorem headerFlash_read (j : Nat) :
    readHW headerFlash j =
      if j = 0 then EEPROM_MARKER else if j = 1 then 0 else 0xFFFF := by
  unfold headerFlash
  rw [readHW_write, readHW_write]
  by_cases h0 : j = 0
  · subst h0; simp
  · by_cases h1 : j = 1 <;> simp [h0, h1, erasedFlash, readHW]

theorem flatPairs_length (vars : List (Nat × Nat)) :
    (flatPairs vars).length = 3 * vars.length := by
  induction vars with
  | nil => rfl
  | cons p rest ih =>
    cases p
    simp only [flatPairs, List.length_cons, ih]
    ring

theorem flatPairs_getD (vars : List (Nat × Nat)) : ∀ i, i < vars.length →
    (flatPairs vars).getD (3*i) 0 = (vars.getD i (0,0)).1 ∧
    (flatPairs vars).getD (3*i+1) 0 = (vars.getD i (0,0)).2 ∧
    (flatPairs vars).getD (3*i+2) 0 =
      EEPROM_calcCRC (vars.getD i (0,0)).1 (vars.getD i (0,0)).2 := by
  induction vars with
  | nil => intro i h; simp at h
  | cons p rest ih =>
    intro i h
    cases p with
    | mk a b =>
      cases i with
      | zero => simp [flatPairs]
      | succ i =>
        have e0 : 3*(i+1) = (3*i) + 1 + 1 + 1 := by ring
        have e1 : 3*(i+1)+1 = (3*i+1) + 1 + 1 + 1 := by ring
        have e2 : 3*(i+1)+2 = (3*i+2) + 1 + 1 + 1 := by ring
        rw [e2, e1, e0]
        simp only [flatPairs, List.getD_cons_succ, List.getD_cons_succ,
          List.getD_cons_succ]
        exact ih i (by
          simp only [List.length_cons] at h
          omega)

theorem writtenFlash_marker (vars : List (Nat × Nat)) :
    readHW (writtenFlash vars) 0 = EEPROM_MARKER := by
  unfold writtenFlash
  rw [multiWrite_read, if_neg (by omega), headerFlash_read]
  simp

theorem writtenFlash_reserved (vars : List (Nat × Nat)) :
    readHW (writtenFlash vars) 1 = 0 := by
  unfold writtenFlash
  rw [multiWrite_read, if_neg (by omega), headerFlash_read]
  simp

theorem writtenFlash_slotId (vars : List (Nat × Nat)) (i : Nat)
    (h : i < vars.length) :
    readHW (writtenFlash vars) (2+3*i) = (vars.getD i (0,0)).1 := by
  unfold writtenFlash
  rw [multiWrite_read, if_pos (by rw [flatPairs_length]; omega)]
  have e : 2 + 3*i - 2 = 3*i := by omega
  rw [e]
  exact (flatPairs_getD vars i h).1

theorem writtenFlash_slotVal (vars : List (Nat × Nat)) (i : Nat)
    (h : i < vars.length) :
    readHW (writtenFlash vars) (2+3*i+1) = (vars.getD i (0,0)).2 := by
  unfold writtenFlash
  rw [multiWrite_read, if_pos (by rw [flatPairs_length]; omega)]
  have e : 2 + 3*i + 1 - 2 = 3*i + 1 := by omega
  rw [e]
  exact (flatPairs_getD vars i h).2.1

theorem writtenFlash_slotCRC (vars : List (Nat × Nat)) (i : Nat)
    (h : i < vars.length) :
    readHW (writtenFlash vars) (2+3*i+2) =
      EEPROM_calcCRC (vars.getD i (0,0)).1 (vars.getD i (0,0)).2 := by
  unfold writtenFlash
  rw [multiWrite_read, if_pos (by rw [flatPairs_length]; omega)]
  have e : 2 + 3*i + 2 - 2 = 3*i + 2 := by omega
  rw [e]
  exact (flatPairs_getD vars i h).2.2

theorem writtenFlash_beyondId (vars : List (Nat × Nat)) (i : Nat)
    (h : vars.length ≤ i) :
    readHW (writtenFlash vars) (2+3*i) = 0xFFFF := by
  unfold writtenFlash
  rw [multiWrite_read, if_neg (by rw [flatPairs_length]; omega), headerFlash_read]
  rw [if_neg (by omega), if_neg (by omega)]

theorem writeHalfWord_eq (i d : Nat) (f : Flash) (o : Oracle) :
    EEPROM_writeHalfWord i d f o =
      if o.headD true then (EEPROM_OK, writeHWmem f i d, o.tail)
      else (EEPROM_ERROR, f, o.tail) := rfl

theorem format_eq (f : Flash) (o : Oracle) :
    EEPROM_format f o =
      if o.headD true then (EEPROM_OK, erasedFlash, o.tail)
      else (EEPROM_ERROR, f, o.tail) := rfl

theorem writeHalfWord_nil (i d : Nat) (f : Flash) :
    EEPROM_writeHalfWord i d f [] = (EEPROM_OK, writeHWmem f i d, []) := rfl

theorem format_nil (f : Flash) :
    EEPROM_format f [] = (EEPROM_OK, erasedFlash, []) := rfl


theorem writeHalfWord_cases (i d : Nat) (f : Flash) (o : Oracle) :
    EEPROM_writeHalfWord i d f o = (EEPROM_OK, writeHWmem f i d, o.tail) ∨
    EEPROM_writeHalfWord i d f o = (EEPROM_ERROR, f, o.tail) := by
  rw [writeHalfWord_eq]
  cases o.headD true <;> simp

theorem format_cases (f : Flash) (o : Oracle) :
    EEPROM_format f o = (EEPROM_OK, erasedFlash, o.tail) ∨
    EEPROM_format f o = (EEPROM_ERROR, f, o.tail) := by
  rw [format_eq]
  cases o.headD true <;> simp

theorem writeEntriesLoop_ok : ∀ (vars : List (Nat × Nat)) (off : Nat)
    (f : Flash) (o : Oracle), (writeEntriesLoop off vars f o).1 = EEPROM_OK →
    (writeEntriesLoop off vars f o).2.1 = multiWrite f off (flatPairs vars) := by
  intro vars
  induction vars with
  | nil => intro off f o _; rfl
  | cons p rest ih =>
    intro off f o hok
    cases p with
    | mk a b =>
      rw [writeEntriesLoop] at hok ⊢
      rcases writeHalfWord_cases off a f o with h1 | h1 <;> rw [h1] at hok ⊢
      case inr => simp [EEPROM_OK, EEPROM_ERROR] at hok
      simp only [ne_eq, not_true_eq_false, if_false] at hok ⊢
      rcases writeHalfWord_cases (off+1) b (writeHWmem f off a) o.tail with h2 | h2 <;>
        rw [h2] at hok ⊢
      case inr => simp [EEPROM_OK, EEPROM_ERROR] at hok
      simp only [ne_eq, not_true_eq_false, if_false] at hok ⊢
      rcases writeHalfWord_cases (off+2) (EEPROM_calcCRC a b)
          (writeHWmem (writeHWmem f off a) (off+1) b) o.tail.tail with h3 | h3 <;>
        rw [h3] at hok ⊢
      case inr => simp [EEPROM_OK, EEPROM_ERROR] at hok
      simp only [ne_eq, not_true_eq_false, if_false] at hok ⊢
      rw [flatPairs, multiWrite, multiWrite, multiWrite]
      exact ih (off+3) _ _ hok

theorem writeEntriesLoop_noFault : ∀ (vars : List (Nat × Nat)) (off : Nat)
    (f : Flash), writeEntriesLoop off vars f [] =
      (EEPROM_OK, multiWrite f off (flatPairs vars), []) := by
  intro vars
  induction vars with
  | nil => intro off f; rfl
  | cons p rest ih =>
    intro off f
    cases p with
    | mk a b =>
      rw [writeEntriesLoop, writeHalfWord_nil]
      simp only [ne_eq, not_true_eq_false, if_false, List.tail_nil,
        writeHalfWord_nil, flatPairs, multiWrite]
      exact ih (off+3) _

theorem rewriteAll_noFault (vars : List (Nat × Nat)) (f : Flash) :
    rewriteAll vars f [] = (EEPROM_OK, writtenFlash vars, []) := by
  rw [rewriteAll, format_nil]
  simp only [ne_eq, not_true_eq_false, if_false, List.tail_nil,
    writeHalfWord_nil, writeEntriesLoop_noFault, writtenFlash, headerFlash]

theorem rewriteAll_ok (vars : List (Nat × Nat)) (f : Flash) (o : Oracle)
    (hok : (rewriteAll vars f o).1 = EEPROM_OK) :
    (rewriteAll vars f o).2.1 = writtenFlash vars := by
  rw [rewriteAll] at hok ⊢
  rcases format_cases f o with h1 | h1 <;> rw [h1] at hok ⊢
  case inr => simp [EEPROM_OK, EEPROM_ERROR] at hok
  simp only [ne_eq, not_true_eq_false, if_false] at hok ⊢
  rcases writeHalfWord_cases 0 EEPROM_MARKER erasedFlash o.tail with h2 | h2 <;>
    rw [h2] at hok ⊢
  case inr => simp [EEPROM_OK, EEPROM_ERROR] at hok
  simp only [ne_eq, not_true_eq_false, if_false] at hok ⊢
  rcases writeHalfWord_cases 1 0 (writeHWmem erasedFlash 0 EEPROM_MARKER)
      o.tail.tail with h3 | h3 <;> rw [h3] at hok ⊢
  case inr => simp [EEPROM_OK, EEPROM_ERROR] at hok
  simp only [ne_eq, not_true_eq_false, if_false] at hok ⊢
  rw [writeEntriesLoop_ok vars 2 _ _ hok]
  rfl

theorem saveVar_noFault (id v : Nat) (f : Flash) :
    EEPROM_saveVar id v f [] =
      (EEPROM_OK, writtenFlash (saveVarVars id v f), []) := by
  rw [EEPROM_saveVar, saveVarVars]
  cases hi : EEPROM_isInitialized f
  · simp only [Bool.false_eq_true, if_false, format_nil, ne_eq,
      not_true_eq_false, List.tail_nil, writeHalfWord_nil,
      rewriteAll_noFault, List.nil_append]
  · simp only [if_true, rewriteAll_noFault]

theorem saveVar_ok (id v : Nat) (f : Flash) (o : Oracle)
    (hok : (EEPROM_saveVar id v f o).1 = EEPROM_OK) :
    (EEPROM_saveVar id v f o).2.1 = writtenFlash (saveVarVars id v f) := by
  rw [EEPROM_saveVar] at hok ⊢
  rw [saveVarVars]
  cases hi : EEPROM_isInitialized f
  · rw [hi] at hok
    simp only [Bool.false_eq_true, if_false] at hok
    simp only [Bool.false_eq_true, if_false, List.nil_append]
    rcases format_cases f o with h1 | h1 <;> rw [h1] at hok ⊢
    case inr => simp [EEPROM_OK, EEPROM_ERROR] at hok
    simp only [ne_eq, not_true_eq_false, if_false] at hok ⊢
    rcases writeHalfWord_cases 0 EEPROM_MARKER erasedFlash o.tail with h2 | h2 <;>
      rw [h2] at hok ⊢
    case inr => simp [EEPROM_OK, EEPROM_ERROR] at hok
    simp only [ne_eq, not_true_eq_false, if_false] at hok ⊢
    rcases writeHalfWord_cases 1 0 (writeHWmem erasedFlash 0 EEPROM_MARKER)
        o.tail.tail with h3 | h3 <;> rw [h3] at hok ⊢
    case inr => simp [EEPROM_OK, EEPROM_ERROR] at hok
    simp only [ne_eq, not_true_eq_false, if_false] at hok ⊢
    exact rewriteAll_ok _ _ _ hok
  · rw [hi] at hok
    simp only [if_true] at hok
    simp only [if_true]
    exact rewriteAll_ok _ _ _ hok

theorem saveVars_noFault (ids values : List Nat) (count : Nat) (f : Flash) :
    EEPROM_saveVars ids values count f [] =
      (EEPROM_OK, writtenFlash (saveVarsVars ids values count f), []) := by
  rw [EEPROM_saveVars, saveVarsVars]
  cases hi : EEPROM_isInitialized f
  · simp only [Bool.false_eq_true, if_false, format_nil, ne_eq,
      not_true_eq_false, List.tail_nil, writeHalfWord_nil,
      rewriteAll_noFault]
  · simp only [if_true, rewriteAll_noFault]

theorem saveVars_ok (ids values : List Nat) (count : Nat) (f : Flash)
    (o : Oracle) (hok : (EEPROM_saveVars ids values count f o).1 = EEPROM_OK) :
    (EEPROM_saveVars ids values count f o).2.1 =
      writtenFlash (saveVarsVars ids values count f) := by
  rw [EEPROM_saveVars] at hok ⊢
  rw [saveVarsVars]
  cases hi : EEPROM_isInitialized f
  · rw [hi] at hok
    simp only [Bool.false_eq_true, if_false] at hok
    simp only [Bool.false_eq_true, if_false]
    rcases format_cases f o with h1 | h1 <;> rw [h1] at hok ⊢
    case inr => simp [EEPROM_OK, EEPROM_ERROR] at hok
    simp only [ne_eq, not_true_eq_false, if_false] at hok ⊢
    rcases writeHalfWord_cases 0 EEPROM_MARKER erasedFlash o.tail with h2 | h2 <;>
      rw [h2] at hok ⊢
    case inr => simp [EEPROM_OK, EEPROM_ERROR] at hok
    simp only [ne_eq, not_true_eq_false, if_false] at hok ⊢
    rcases writeHalfWord_cases 1 0 (writeHWmem erasedFlash 0 EEPROM_MARKER)
        o.tail.tail with h3 | h3 <;> rw [h3] at hok ⊢
    case inr => simp [EEPROM_OK, EEPROM_ERROR] at hok
    simp only [ne_eq, not_true_eq_false, if_false] at hok ⊢
    exact rewriteAll_ok _ _ _ hok
  · rw [hi] at hok
    simp only [if_true] at hok
    simp only [if_true]
    exact rewriteAll_ok _ _ _ hok

theorem writeHalfWord_consT (i d : Nat) (f : Flash) (o : Oracle) :
    EEPROM_writeHalfWord i d f (true :: o) = (EEPROM_OK, writeHWmem f i d, o) := rfl

theorem writeHalfWord_consF (i d : Nat) (f : Flash) (o : Oracle) :
    EEPROM_writeHalfWord i d f (false :: o) = (EEPROM_ERROR, f, o) := rfl

theorem format_consT (f : Flash) (o : Oracle) :
    EEPROM_format f (true :: o) = (EEPROM_OK, erasedFlash, o) := rfl

theorem writeEntriesLoop_fail (o' : Oracle) : ∀ (vars : List (Nat × Nat))
    (m off : Nat) (f : Flash), m < 3 * vars.length →
    writeEntriesLoop off vars f (List.replicate m true ++ false :: o') =
      (EEPROM_ERROR, multiWrite f off ((flatPairs vars).take m), o') := by
  intro vars
  induction vars with
  | nil => intro m off f h; simp at h
  | cons p rest ih =>
    intro m off f h
    cases p with
    | mk a b =>
      rcases m with _ | _ | _ | m
      · rw [List.replicate_zero, List.nil_append, writeEntriesLoop,
          writeHalfWord_consF]
        simp [EEPROM_ERROR, EEPROM_OK, multiWrite]
      · rw [show List.replicate 1 true ++ false :: o' = true :: false :: o'
          from rfl, writeEntriesLoop, writeHalfWord_consT]
        simp only [EEPROM_OK, ne_eq, not_true_eq_false, if_false,
          writeHalfWord_consF]
        simp [EEPROM_ERROR, EEPROM_OK, flatPairs, multiWrite]
      · rw [show List.replicate 2 true ++ false :: o' =
            true :: true :: false :: o' from rfl, writeEntriesLoop,
          writeHalfWord_consT]
        simp only [EEPROM_OK, ne_eq, not_true_eq_false, if_false,
          writeHalfWord_consT, writeHalfWord_consF]
        simp [EEPROM_ERROR, EEPROM_OK, flatPairs, multiWrite]
      · rw [show List.replicate (m+3) true ++ false :: o' =
            true :: true :: true :: (List.replicate m true ++ false :: o')
          from by simp [List.replicate_succ], writeEntriesLoop,
          writeHalfWord_consT]
        simp only [EEPROM_OK, ne_eq, not_true_eq_false, if_false,
          writeHalfWord_consT]
        rw [ih m (off+3) _ (by simp only [List.length_cons] at h; omega)]
        rw [show (flatPairs ((a, b) :: rest)).take (m+3) =
            a :: b :: EEPROM_calcCRC a b :: (flatPairs rest).take m from rfl]
        rw [multiWrite, multiWrite, multiWrite]

theorem saveVar_failWrites (id v : Nat) (f : Flash) (o : Oracle)
    (hinit : EEPROM_isInitialized f = true) :
    EEPROM_saveVar id v f (true :: true :: true :: o) =
      writeEntriesLoop 2 (saveVarVars id v f) headerFlash o := by
  rw [EEPROM_saveVar, hinit, if_pos rfl, saveVarVars, hinit, if_pos rfl,
    rewriteAll, format_consT]
  simp only [EEPROM_OK, ne_eq, not_true_eq_false, if_false,
    writeHalfWord_consT, headerFlash]

theorem saveVars_failWrites (ids values : List Nat) (count : Nat) (f : Flash)
    (o : Oracle) (hinit : EEPROM_isInitialized f = true) :
    EEPROM_saveVars ids values count f (true :: true :: true :: o) =
      writeEntriesLoop 2 (saveVarsVars ids values count f) headerFlash o := by
  rw [EEPROM_saveVars, hinit, if_pos rfl, saveVarsVars, hinit, if_pos rfl,
    rewriteAll, format_consT]
  simp only [EEPROM_OK, ne_eq, not_true_eq_false, if_false,
    writeHalfWord_consT, headerFlash]

theorem findVarLoop_spec (id : Nat) (f : Flash) : ∀ (n i : Nat),
    findVarLoop id f (2+3*i) n =
      (findIdxSpec (entryMatches id)
        (((List.range' i n).map (slotTriple f)).takeWhile
          (fun e => !(e.1 == 0xFFFF)))).map (fun j => 2+3*(i+j)) := by
  intro n
  induction n with
  | zero => intro i; rfl
  | succ n ih =>
    intro i
    rw [List.range'_succ, List.map_cons, List.takeWhile_cons]
    cases hFF : ((slotTriple f i).1 == 0xFFFF)
    · simp only [Bool.not_false, if_true]
      rw [findIdxSpec]
      cases hm : entryMatches id (slotTriple f i)
      · simp only [Bool.false_eq_true, if_false]
        rw [findVarLoop]
        have hne : ¬ (readHW f (2+3*i) = 0xFFFF) := by
          simp only [slotTriple, beq_eq_false_iff_ne, ne_eq] at hFF
          exact hFF
        rw [if_neg hne, if_neg (fun hc => by
          have ht : entryMatches id (slotTriple f i) = true := by
            simp only [entryMatches, entryValid, slotTriple,
              Bool.and_eq_true, beq_iff_eq]
            exact ⟨hc.1, hc.2⟩
          rw [hm] at ht
          exact Bool.false_ne_true ht)]
        have e3 : 2 + 3*i + 3 = 2 + 3*(i+1) := by ring
        rw [e3, ih (i+1), Option.map_map]
        have hfun : ((fun j => 2 + 3*(i+j)) ∘ fun x => x + 1) =
            (fun j => 2 + 3*(i+1+j)) := by
          funext j
          simp only [Function.comp_apply]
          ring
        rw [hfun]
      · simp only [if_true]
        rw [findVarLoop]
        have hne : ¬ (readHW f (2+3*i) = 0xFFFF) := by
          simp only [slotTriple, beq_eq_false_iff_ne, ne_eq] at hFF
          exact hFF
        simp only [entryMatches, entryValid, Bool.and_eq_true, beq_iff_eq,
          slotTriple] at hm
        rw [if_neg hne, if_pos ⟨hm.1, hm.2⟩]
        simp
    · simp only [Bool.not_true, Bool.false_eq_true, if_false]
      rw [findVarLoop]
      simp only [slotTriple, beq_iff_eq] at hFF
      rw [if_pos hFF]
      rfl

theorem findVar_spec (id : Nat) (f : Flash) :
    EEPROM_findVar id f =
      if EEPROM_isInitialized f then
        (findIdxSpec (entryMatches id) (scannedSlots f)).map (fun j => 2+3*j)
      else none := by
  rw [EEPROM_findVar]
  cases hi : EEPROM_isInitialized f
  · simp
  · simp only [if_true]
    conv_lhs => rw [show (2 : Nat) = 2 + 3*0 from by ring]
    rw [findVarLoop_spec id f 10 0, scannedSlots, List.range_eq_range']
    have hfun : (fun j => 2 + 3*(0+j)) = (fun j : Nat => 2 + 3*j) := by
      funext j
      ring
    rw [hfun]

theorem scanLoop_spec (tgt : Nat) (f : Flash) : ∀ (n i : Nat),
    scanLoop tgt f (2+3*i) n =
      (((((List.range' i n).map (slotTriple f)).takeWhile
          (fun e => !(e.1 == 0xFFFF))).filter entryValid).map
        (fun e => (e.1 % 256, e.2.1))).filter (fun p => !(p.1 == tgt)) := by
  intro n
  induction n with
  | zero => intro i; rfl
  | succ n ih =>
    intro i
    rw [List.range'_succ, List.map_cons, List.takeWhile_cons]
    have e3 : 2 + 3*i + 3 = 2 + 3*(i+1) := by ring
    cases hFF : ((slotTriple f i).1 == 0xFFFF)
    · simp only [Bool.not_false, if_true]
      have hne : ¬ (readHW f (2+3*i) = 0xFFFF) := by
        simp only [slotTriple, beq_eq_false_iff_ne, ne_eq] at hFF
        exact hFF
      rw [scanLoop, if_neg hne]
      cases hv : entryValid (slotTriple f i)
      · have hnv : ¬ (readHW f (2+3*i+2) =
            EEPROM_calcCRC (readHW f (2+3*i)) (readHW f (2+3*i+1))) := by
          simp only [entryValid, slotTriple, beq_eq_false_iff_ne, ne_eq] at hv
          exact hv
        rw [List.filter_cons_of_neg (by simp [hv])]
        by_cases hid : readHW f (2+3*i) % 256 = tgt
        · rw [if_pos hid, e3, ih (i+1)]
        · rw [if_neg hid, if_neg hnv, e3, ih (i+1)]
      · rw [List.filter_cons_of_pos hv, List.map_cons]
        have hvp : readHW f (2+3*i+2) =
            EEPROM_calcCRC (readHW f (2+3*i)) (readHW f (2+3*i+1)) := by
          simp only [entryValid, slotTriple, beq_iff_eq] at hv
          exact hv
        by_cases hid : readHW f (2+3*i) % 256 = tgt
        · rw [if_pos hid, e3, ih (i+1),
            List.filter_cons_of_neg (by
              simp only [slotTriple, hid, beq_self_eq_true, Bool.not_true,
                Bool.false_eq_true, not_false_eq_true])]
        · rw [if_neg hid, if_pos hvp, e3, ih (i+1),
            List.filter_cons_of_pos (by
              simp only [slotTriple, Bool.not_eq_true', beq_eq_false_iff_ne,
                ne_eq]
              exact hid)]
          rfl
    · simp only [Bool.not_true, Bool.false_eq_true, if_false]
      rw [scanLoop]
      simp only [slotTriple, beq_iff_eq] at hFF
      rw [if_pos hFF]
      rfl

theorem scanLoop_eq (tgt : Nat) (f : Flash) :
    scanLoop tgt f 2 10 = (scanValidList f).filter (fun p => !(p.1 == tgt)) := by
  conv_lhs => rw [show (2 : Nat) = 2 + 3*0 from by ring]
  rw [scanLoop_spec tgt f 10 0, scanValidList, scannedSlots,
    List.range_eq_range']

theorem scanLoopMulti_spec (newIds : List Nat) (f : Flash) : ∀ (n i : Nat),
    scanLoopMulti newIds f (2+3*i) n =
      (((((List.range' i n).map (slotTriple f)).takeWhile
          (fun e => !(e.1 == 0xFFFF))).filter entryValid).map
        (fun e => (e.1 % 256, e.2.1))).filter
        (fun p => !(newIds.contains p.1)) := by
  intro n
  induction n with
  | zero => intro i; rfl
  | succ n ih =>
    intro i
    rw [List.range'_succ, List.map_cons, List.takeWhile_cons]
    have e3 : 2 + 3*i + 3 = 2 + 3*(i+1) := by ring
    cases hFF : ((slotTriple f i).1 == 0xFFFF)
    · simp only [Bool.not_false, if_true]
      have hne : ¬ (readHW f (2+3*i) = 0xFFFF) := by
        simp only [slotTriple, beq_eq_false_iff_ne, ne_eq] at hFF
        exact hFF
      rw [scanLoopMulti, if_neg hne]
      cases hv : entryValid (slotTriple f i)
      · have hnv : ¬ (readHW f (2+3*i+2) =
            EEPROM_calcCRC (readHW f (2+3*i)) (readHW f (2+3*i+1))) := by
          simp only [entryValid, slotTriple, beq_eq_false_iff_ne, ne_eq] at hv
          exact hv
        rw [List.filter_cons_of_neg (by simp [hv]), if_neg hnv, e3, ih (i+1)]
      · rw [List.filter_cons_of_pos hv, List.map_cons]
        have hvp : readHW f (2+3*i+2) =
            EEPROM_calcCRC (readHW f (2+3*i)) (readHW f (2+3*i+1)) := by
          simp only [entryValid, slotTriple, beq_iff_eq] at hv
          exact hv
        rw [if_pos hvp]
        cases hc : newIds.contains (readHW f (2+3*i) % 256)
        · rw [if_neg (by simp), e3, ih (i+1),
            List.filter_cons_of_pos (by
              simp only [slotTriple, Bool.not_eq_true']
              exact hc)]
          rfl
        · rw [if_pos rfl, e3, ih (i+1),
            List.filter_cons_of_neg (by
              simp only [slotTriple, hc, Bool.not_true, Bool.false_eq_true,
                not_false_eq_true])]
    · simp only [Bool.not_true, Bool.false_eq_true, if_false]
      rw [scanLoopMulti]
      simp only [slotTriple, beq_iff_eq] at hFF
      rw [if_pos hFF]
      rfl

theorem scanLoopMulti_eq (newIds : List Nat) (f : Flash) :
    scanLoopMulti newIds f 2 10 =
      (scanValidList f).filter (fun p => !(newIds.contains p.1)) := by
  conv_lhs => rw [show (2 : Nat) = 2 + 3*0 from by ring]
  rw [scanLoopMulti_spec newIds f 10 0, scanValidList, scannedSlots,
    List.range_eq_range']

theorem scannedSlotsAux_written (vars : List (Nat × Nat))
    (h : ∀ p ∈ vars, p.1 < 256) : ∀ (n i : Nat),
    ((List.range' i n).map (slotTriple (writtenFlash vars))).takeWhile
        (fun e => !(e.1 == 0xFFFF)) =
      ((vars.drop i).take n).map
        (fun p => (p.1, p.2, EEPROM_calcCRC p.1 p.2)) := by
  intro n
  induction n with
  | zero => intro i; simp
  | succ n ih =>
    intro i
    rw [List.range'_succ, List.map_cons, List.takeWhile_cons]
    by_cases hi : i < vars.length
    · have hslot : slotTriple (writtenFlash vars) i =
          ((vars.getD i (0,0)).1, (vars.getD i (0,0)).2,
            EEPROM_calcCRC (vars.getD i (0,0)).1 (vars.getD i (0,0)).2) := by
        unfold slotTriple
        rw [writtenFlash_slotId vars i hi, writtenFlash_slotVal vars i hi,
          writtenFlash_slotCRC vars i hi]
      have hmem : vars.getD i (0,0) ∈ vars := by
        rw [List.getD_eq_getElem vars (0,0) hi]
        exact List.getElem_mem hi
      have hlt : (vars.getD i (0,0)).1 < 256 := h _ hmem
      rw [hslot, if_pos (by
        simp only [Bool.not_eq_true', beq_eq_false_iff_ne, ne_eq]
        omega)]
      rw [List.drop_eq_getElem_cons hi, List.take_succ_cons, List.map_cons]
      rw [← List.getD_eq_getElem vars (0,0) hi]
      rw [ih (i+1)]
    · have hFF : (slotTriple (writtenFlash vars) i).1 = 0xFFFF := by
        unfold slotTriple
        exact writtenFlash_beyondId vars i (by omega)
      rw [hFF]
      simp only [beq_self_eq_true, Bool.not_true, Bool.false_eq_true, if_false]
      rw [List.drop_eq_nil_of_le (by omega)]
      simp

theorem scannedSlots_written (vars : List (Nat × Nat))
    (h : ∀ p ∈ vars, p.1 < 256) :
    scannedSlots (writtenFlash vars) =
      (vars.take 10).map (fun p => (p.1, p.2, EEPROM_calcCRC p.1 p.2)) := by
  rw [scannedSlots, List.range_eq_range', scannedSlotsAux_written vars h 10 0,
    List.drop_zero]

theorem scanValidList_written (vars : List (Nat × Nat))
    (h : ∀ p ∈ vars, p.1 < 256) :
    scanValidList (writtenFlash vars) = vars.take 10 := by
  rw [scanValidList, scannedSlots_written vars h]
  rw [List.filter_eq_self.mpr (by
    intro e he
    rcases List.mem_map.mp he with ⟨p, hp, rfl⟩
    simp [entryValid])]
  rw [List.map_map]
  have hcg : ∀ p ∈ vars.take 10,
      ((fun e : Nat × Nat × Nat => (e.1 % 256, e.2.1)) ∘
        (fun p : Nat × Nat => (p.1, p.2, EEPROM_calcCRC p.1 p.2))) p = id p := by
    intro p hp
    have hlt := h p (List.mem_of_mem_take hp)
    simp only [Function.comp_apply, id_eq, Nat.mod_eq_of_lt hlt]
  rw [List.map_congr_left hcg, List.map_id]

theorem isInitialized_written (vars : List (Nat × Nat)) :
    EEPROM_isInitialized (writtenFlash vars) = true := by
  rw [EEPROM_isInitialized, writtenFlash_marker]
  simp

theorem findIdxSpec_map {A B : Type} (g : A → B) (p : B → Bool) :
    ∀ l : List A, findIdxSpec p (l.map g) = findIdxSpec (fun a => p (g a)) l := by
  intro l
  induction l with
  | nil => rfl
  | cons a l ih =>
    rw [List.map_cons, findIdxSpec, findIdxSpec, ih]

theorem findIdxSpec_append_last {A : Type} (p : A → Bool) :
    ∀ (l1 : List A) (x : A), (∀ a ∈ l1, p a = false) → p x = true →
    findIdxSpec p (l1 ++ [x]) = some l1.length := by
  intro l1
  induction l1 with
  | nil =>
    intro x _ hx
    rw [List.nil_append, findIdxSpec, if_pos hx]
    rfl
  | cons a l ih =>
    intro x hl hx
    rw [List.cons_append, findIdxSpec,
      if_neg (by rw [hl a (List.mem_cons_self a l)]; simp),
      ih x (fun b hb => hl b (List.mem_cons_of_mem a hb)) hx]
    rfl

theorem scanValidList_fst_lt (f : Flash) : ∀ p ∈ scanValidList f, p.1 < 256 := by
  intro p hp
  rcases List.mem_map.mp hp with ⟨e, _, rfl⟩
  exact Nat.mod_lt _ (by norm_num)

theorem readVar_written (pre : List (Nat × Nat)) (id v : Nat) (hid : id < 256)
    (hpre : ∀ p ∈ pre, p.1 < 256 ∧ p.1 ≠ id)
    (hlen : (pre ++ [(id, v)]).length ≤ 10) :
    EEPROM_readVar id (writtenFlash (pre ++ [(id, v)])) = v := by
  have hall : ∀ p ∈ pre ++ [(id, v)], p.1 < 256 := by
    intro p hp
    rcases List.mem_append.mp hp with h1 | h1
    · exact (hpre p h1).1
    · rcases List.mem_singleton.mp h1 with rfl
      exact hid
  have hfind : EEPROM_findVar id (writtenFlash (pre ++ [(id, v)])) =
      some (2 + 3 * pre.length) := by
    rw [findVar_spec, isInitialized_written, if_pos rfl,
      scannedSlots_written _ hall, List.take_of_length_le hlen,
      List.map_append, List.map_singleton]
    rw [show ((pre.map fun p => (p.1, p.2, EEPROM_calcCRC p.1 p.2)) ++
        [((id, v).1, (id, v).2, EEPROM_calcCRC (id, v).1 (id, v).2)]) =
        ((pre ++ [(id, v)]).map fun p => (p.1, p.2, EEPROM_calcCRC p.1 p.2))
      from by rw [List.map_append, List.map_singleton]]
    rw [findIdxSpec_map]
    rw [findIdxSpec_append_last _ pre (id, v) (by
        intro p hp
        simp only [entryMatches, entryValid, Bool.and_eq_false_iff]
        left
        have := hpre p hp
        rw [Nat.mod_eq_of_lt this.1]
        simp only [beq_eq_false_iff_ne, ne_eq]
        exact this.2)
      (by simp [entryMatches, entryValid, Nat.mod_eq_of_lt hid])]
    rfl
  rw [EEPROM_readVar, hfind]
  have hi : pre.length < (pre ++ [(id, v)]).length := by
    simp
  show readHW (writtenFlash (pre ++ [(id, v)])) (2 + 3 * pre.length + 1) = v
  rw [writtenFlash_slotVal (pre ++ [(id, v)]) pre.length hi]
  rw [List.getD_eq_getElem _ (0,0) hi]
  simp

theorem appendLoop_eq : ∀ (l vars : List (Nat × Nat)),
    appendLoop vars l = vars ++ l.take (10 - vars.length) := by
  intro l
  induction l with
  | nil => intro vars; simp [appendLoop]
  | cons p rest ih =>
    intro vars
    rw [appendLoop]
    by_cases h : 10 ≤ vars.length
    · rw [if_pos h, show 10 - vars.length = 0 from by omega, List.take_zero,
        List.append_nil]
    · rw [if_neg h, ih, List.append_assoc]
      congr 1
      rw [show 10 - vars.length = (10 - (vars ++ [p]).length) + 1 from by
        simp only [List.length_append, List.length_singleton]
        omega, List.take_succ_cons]
      rfl

/-- C1 (amended): for ids 0..254 and values 0..65534, with no primitive
failure, readVar(id) after saveVar(id, value) returns value, provided the
rewritten working set (surviving entries plus the new pair) holds at most
10 entries; the save itself reports EEPROM_OK. -/
theorem C1_roundtrip_within_capacity (id v : Nat) (f : Flash)
    (hid : id ≤ 254) (_hv : v ≤ 65534)
    (hcap : (saveVarVars id v f).length ≤ 10) :
    (EEPROM_saveVar id v f []).1 = EEPROM_OK ∧
    EEPROM_readVar id (EEPROM_saveVar id v f []).2.1 = v := by
  rw [saveVar_noFault]
  refine ⟨rfl, ?_⟩
  show EEPROM_readVar id (writtenFlash (saveVarVars id v f)) = v
  rw [saveVarVars] at hcap ⊢
  have hpre : ∀ p ∈ (if EEPROM_isInitialized f then scanLoop id f 2 10
      else []), p.1 < 256 ∧ p.1 ≠ id := by
    intro p hp
    by_cases hi : EEPROM_isInitialized f
    · rw [if_pos hi, scanLoop_eq] at hp
      have h1 := List.mem_of_mem_filter hp
      have h2 := List.of_mem_filter hp
      refine ⟨scanValidList_fst_lt f p h1, ?_⟩
      simp only [Bool.not_eq_true', beq_eq_false_iff_ne, ne_eq] at h2
      exact h2
    · rw [if_neg hi] at hp
      simp at hp
  exact readVar_written _ id v (by omega) hpre hcap

theorem C1_roundtrip_within_capacity_witness :
    (1 : Nat) ≤ 254 ∧ (7 : Nat) ≤ 65534 ∧
    (saveVarVars 1 7 erasedFlash).length ≤ 10 ∧
    ((EEPROM_saveVar 1 7 erasedFlash []).1 = EEPROM_OK ∧
      EEPROM_readVar 1 (EEPROM_saveVar 1 7 erasedFlash []).2.1 = 7) :=
  ⟨by decide, by decide, by decide,
    C1_roundtrip_within_capacity 1 7 erasedFlash (by decide) (by decide)
      (by decide)⟩

/-- C1 (counterexample): on a region already holding 10 live entries with
other ids (built by the API itself), saveVar(10, 5) reports EEPROM_OK with
no primitive failure, yet readVar(10) afterwards returns 0xFFFF, not 5: the
new entry lands in slot 10, beyond the 10-slot lookup window. -/
theorem C1_counterexample_full_region :
    (EEPROM_saveVar 10 5 f10c []).1 = EEPROM_OK ∧
    EEPROM_readVar 10 (EEPROM_saveVar 10 5 f10c []).2.1 = 0xFFFF ∧
    ¬ EEPROM_readVar 10 (EEPROM_saveVar 10 5 f10c []).2.1 = 5 := by decide

/-- C2 (code divergence): with the region at full capacity (10 live entries,
ids 0..9, each readable), EEPROM_saveVar(10, 5) does not truncate its
working set to 10: the scan collects 10 survivors, the unguarded append
makes an 11th working-set entry (an out-of-bounds store into the
10-element varIds/varValues arrays in EEPROM.c), and the rewrite phase
programs an 11th entry slot (its Id half-word reads back 10). -/
theorem C2_saveVar_overflows_capacity :
    (∀ i < 10, EEPROM_readVar i f10c = 100 + i) ∧
    (scanLoop 10 f10c 2 10).length = 10 ∧
    (saveVarVars 10 5 f10c).length = 11 ∧
    (EEPROM_saveVar 10 5 f10c []).1 = EEPROM_OK ∧
    readHW (EEPROM_saveVar 10 5 f10c []).2.1 (2+3*10) = 10 := by decide

/-- C3 (counterexample): with 10 surviving entries, a saveVars call appends
none of its new pairs: saveVars([10],[5],1) on the full region reports
EEPROM_OK with no primitive failure, yet readVar(10) returns 0xFFFF, so
not all count new pairs were appended. -/
theorem C3_counterexample_truncated_append :
    (EEPROM_saveVars [10] [5] 1 f10c []).1 = EEPROM_OK ∧
    EEPROM_readVar 10 (EEPROM_saveVars [10] [5] 1 f10c []).2.1 = 0xFFFF := by
  decide

/-- C3 (amended): EEPROM_saveVars supersedes every id of the caller list in
one pass — an existing valid entry survives iff its low-8-bit id appears
nowhere in the new id list — and the count new pairs are appended in order
only up to the capacity of 10 working-set entries (excess pairs are
silently dropped); the concrete scenario saveVars([1,2,3],[10,20,30],3)
then saveVars([2],[99],1) leaves readVar(1)=10, readVar(2)=99,
readVar(3)=30. -/
theorem C3_saveVars_supersedes (f : Flash) (ids values : List Nat)
    (count : Nat) (hinit : EEPROM_isInitialized f = true) :
    saveVarsVars ids values count f =
      (scanValidList f).filter
          (fun p => !((ids.take count).contains p.1)) ++
        ((ids.take count).zip (values.take count)).take
          (10 - ((scanValidList f).filter
            (fun p => !((ids.take count).contains p.1))).length) ∧
    ((EEPROM_saveVars [1,2,3] [10,20,30] 3 erasedFlash []).1 = EEPROM_OK ∧
      (EEPROM_saveVars [2] [99] 1 c3f1 []).1 = EEPROM_OK ∧
      EEPROM_readVar 1 c3f2 = 10 ∧ EEPROM_readVar 2 c3f2 = 99 ∧
      EEPROM_readVar 3 c3f2 = 30) := by
  constructor
  · rw [saveVarsVars, if_pos hinit, scanLoopMulti_eq, appendLoop_eq]
  · decide

theorem C3_saveVars_supersedes_witness :
    EEPROM_isInitialized c3f1 = true ∧
    (saveVarsVars [2] [99] 1 c3f1 =
      (scanValidList c3f1).filter
          (fun p => !(([2].take 1).contains p.1)) ++
        (([2].take 1).zip ([99].take 1)).take
          (10 - ((scanValidList c3f1).filter
            (fun p => !(([2].take 1).contains p.1))).length) ∧
    ((EEPROM_saveVars [1,2,3] [10,20,30] 3 erasedFlash []).1 = EEPROM_OK ∧
      (EEPROM_saveVars [2] [99] 1 c3f1 []).1 = EEPROM_OK ∧
      EEPROM_readVar 1 c3f2 = 10 ∧ EEPROM_readVar 2 c3f2 = 99 ∧
      EEPROM_readVar 3 c3f2 = 30)) :=
  ⟨by decide, C3_saveVars_supersedes c3f1 [2] [99] 1 (by decide)⟩

/-- C4: EEPROM_findVar returns not-found immediately when the header marker
is absent; otherwise it scans entry slots from slot 0 upward, at most 10,
stopping at the first slot whose Id half-word is 0xFFFF, and returns the
offset of the first scanned entry whose low 8 Id bits equal the requested
id and whose Check half-word equals xor(Id, Value); with no such entry it
returns not-found. -/
theorem C4_findVar_characterization (id : Nat) (f : Flash) :
    EEPROM_findVar id f =
      if EEPROM_isInitialized f then
        (findIdxSpec (entryMatches id) (scannedSlots f)).map (fun j => 2+3*j)
      else none :=
  findVar_spec id f

theorem contains_iff_mem_nat (l : List Nat) (x : Nat) :
    l.contains x = true ↔ x ∈ l := by
  simp

theorem map_fst_filter_fst (q : Nat → Bool) :
    ∀ l : List (Nat × Nat),
      (l.filter (fun p => q p.1)).map Prod.fst = (l.map Prod.fst).filter q := by
  intro l
  induction l with
  | nil => rfl
  | cons p rest ih =>
    rw [List.map_cons, List.filter_cons, List.filter_cons]
    cases hq : q p.1
    · simpa [hq] using ih
    · simpa [hq] using ih

theorem filter_length_lt (p : Nat → Bool) :
    ∀ l : List Nat, (∃ a ∈ l, p a = false) → (l.filter p).length < l.length := by
  intro l
  induction l with
  | nil => intro h; simp at h
  | cons a rest ih =>
    intro h
    rw [List.filter_cons]
    cases hp : p a
    · simp only [Bool.false_eq_true, if_false, List.length_cons]
      have := List.length_filter_le p rest
      omega
    · simp only [if_true, List.length_cons]
      rcases h with ⟨b, hb, hpb⟩
      rcases List.mem_cons.mp hb with rfl | hb'
      · rw [hp] at hpb
        simp at hpb
      · have := ih ⟨b, hb', hpb⟩
        omega

theorem liveLowIds_written (vars : List (Nat × Nat))
    (h : ∀ p ∈ vars, p.1 < 256) :
    liveLowIds (writtenFlash vars) = (vars.map Prod.fst).take 10 := by
  rw [liveLowIds, scanValidList_written vars h, List.map_take]

theorem saveVarVars_fst_lt (id v : Nat) (f : Flash) (hid : id < 256) :
    ∀ p ∈ saveVarVars id v f, p.1 < 256 := by
  intro p hp
  rw [saveVarVars] at hp
  rcases List.mem_append.mp hp with h1 | h1
  · by_cases hi : EEPROM_isInitialized f
    · rw [if_pos hi, scanLoop_eq] at h1
      exact scanValidList_fst_lt f p (List.mem_of_mem_filter h1)
    · rw [if_neg hi] at h1
      simp at h1
  · rcases List.mem_singleton.mp h1 with rfl
    exact hid

theorem saveVarsVars_fst_lt (ids values : List Nat) (count : Nat) (f : Flash)
    (hids : ∀ x ∈ ids.take count, x < 256) :
    ∀ p ∈ saveVarsVars ids values count f, p.1 < 256 := by
  intro p hp
  rw [saveVarsVars, appendLoop_eq] at hp
  rcases List.mem_append.mp hp with h1 | h1
  · by_cases hi : EEPROM_isInitialized f
    · rw [if_pos hi, scanLoopMulti_eq] at h1
      exact scanValidList_fst_lt f p (List.mem_of_mem_filter h1)
    · rw [if_neg hi] at h1
      simp at h1
  · have h2 := List.mem_of_mem_take h1
    exact hids p.1 (List.of_mem_zip h2).1

theorem map_fst_filter_ne (tgt : Nat) (l : List (Nat × Nat)) :
    (l.filter (fun p => !(p.1 == tgt))).map Prod.fst =
      (l.map Prod.fst).filter (fun x => !(x == tgt)) :=
  map_fst_filter_fst (fun x => !(x == tgt)) l

theorem map_fst_filter_ncontains (newIds : List Nat) (l : List (Nat × Nat)) :
    (l.filter (fun p => !(newIds.contains p.1))).map Prod.fst =
      (l.map Prod.fst).filter (fun x => !(newIds.contains x)) :=
  map_fst_filter_fst (fun x => !(newIds.contains x)) l

/-- C5 (amended): after a successful EEPROM_saveVar with no duplicate-free
violation possible (its single id), and after a successful EEPROM_saveVars
whose first count ids are pairwise distinct, at most one live entry exists
per distinct low-8-bit identifier, provided the prior region already
satisfied that invariant; and a saveVar for an id that already has a live
entry does not increase the live entry count.  (EEPROM_saveVars called
with a duplicated id in its list writes duplicate live entries.) -/
theorem C5_at_most_one_live_per_id (f : Flash) (o o2 : Oracle)
    (id v count : Nat) (ids values : List Nat)
    (hprior : (liveLowIds f).Nodup)
    (hid : id < 256)
    (hok : (EEPROM_saveVar id v f o).1 = EEPROM_OK)
    (hids : ∀ x ∈ ids.take count, x < 256)
    (hnodup : (ids.take count).Nodup)
    (hc1 : count ≤ ids.length) (hc2 : count ≤ values.length)
    (hok2 : (EEPROM_saveVars ids values count f o2).1 = EEPROM_OK) :
    (liveLowIds (EEPROM_saveVar id v f o).2.1).Nodup ∧
    (liveLowIds (EEPROM_saveVars ids values count f o2).2.1).Nodup ∧
    (id ∈ liveLowIds f →
      (liveLowIds (EEPROM_saveVar id v f o).2.1).length ≤
        (liveLowIds f).length) := by
  rw [saveVar_ok id v f o hok, saveVars_ok ids values count f o2 hok2]
  refine ⟨?_, ?_, ?_⟩
  · rw [liveLowIds_written _ (saveVarVars_fst_lt id v f hid)]
    refine List.Nodup.sublist (List.take_sublist _ _) ?_
    rw [saveVarVars, List.map_append, List.map_singleton, List.nodup_append]
    refine ⟨?_, List.nodup_singleton id, ?_⟩
    · by_cases hi : EEPROM_isInitialized f
      · rw [if_pos hi, scanLoop_eq, map_fst_filter_ne]
        exact hprior.filter _
      · rw [if_neg hi]
        simp
    · intro a ha hb
      rcases List.mem_singleton.mp hb with rfl
      by_cases hi : EEPROM_isInitialized f
      · rw [if_pos hi, scanLoop_eq, map_fst_filter_ne] at ha
        have := List.of_mem_filter ha
        simp at this
      · rw [if_neg hi] at ha
        simp at ha
  · rw [liveLowIds_written _ (saveVarsVars_fst_lt ids values count f hids)]
    refine List.Nodup.sublist (List.take_sublist _ _) ?_
    rw [saveVarsVars, appendLoop_eq, List.map_append, List.nodup_append]
    have hzip : ((ids.take count).zip (values.take count)).map Prod.fst =
        ids.take count :=
      List.map_fst_zip _ _ (by
        rw [List.length_take, List.length_take]
        omega)
    refine ⟨?_, ?_, ?_⟩
    · by_cases hi : EEPROM_isInitialized f
      · rw [if_pos hi, scanLoopMulti_eq, map_fst_filter_ncontains]
        exact hprior.filter _
      · rw [if_neg hi]
        simp
    · rw [List.map_take, hzip]
      exact List.Nodup.sublist (List.take_sublist _ _) hnodup
    · intro a ha hb
      rw [List.map_take, hzip] at hb
      have hbmem : a ∈ ids.take count := List.mem_of_mem_take hb
      by_cases hi : EEPROM_isInitialized f
      · rw [if_pos hi, scanLoopMulti_eq, map_fst_filter_ncontains] at ha
        have hfa := List.of_mem_filter ha
        simp only [Bool.not_eq_true'] at hfa
        rw [(contains_iff_mem_nat (ids.take count) a).mpr hbmem] at hfa
        simp at hfa
      · rw [if_neg hi] at ha
        simp at ha
  · intro hmem
    rw [liveLowIds_written _ (saveVarVars_fst_lt id v f hid), List.length_take,
      saveVarVars, List.length_map, List.length_append, List.length_singleton]
    by_cases hi : EEPROM_isInitialized f
    · rw [if_pos hi, scanLoop_eq]
      have e1 : ((scanValidList f).filter (fun p => !(p.1 == id))).length =
          ((liveLowIds f).filter (fun x => !(x == id))).length := by
        rw [liveLowIds, ← map_fst_filter_ne, List.length_map]
      have e2 := filter_length_lt (fun x => !(x == id)) (liveLowIds f)
        ⟨id, hmem, by simp⟩
      omega
    · rw [if_neg hi]
      have : 0 < (liveLowIds f).length :=
        List.length_pos.mpr (List.ne_nil_of_mem hmem)
      simp only [List.length_nil]
      omega

/-- C5 (counterexample): EEPROM_saveVars called with a duplicated id in its
list ([5,5] with values [1,2]) succeeds and leaves two live entries whose
low-8-bit id is 5, so the at-most-one-live-entry-per-id invariant fails
after a successful save. -/
theorem C5_counterexample_duplicate_ids :
    (EEPROM_saveVars [5,5] [1,2] 2 erasedFlash []).1 = EEPROM_OK ∧
    liveLowIds (EEPROM_saveVars [5,5] [1,2] 2 erasedFlash []).2.1 = [5, 5] ∧
    ¬ (liveLowIds (EEPROM_saveVars [5,5] [1,2] 2 erasedFlash []).2.1).Nodup := by
  decide

theorem C5_at_most_one_live_per_id_witness :
    ((liveLowIds c6base).Nodup ∧ (3:Nat) < 256 ∧
      (EEPROM_saveVar 3 9 c6base []).1 = EEPROM_OK ∧
      (∀ x ∈ [4].take 1, x < 256) ∧ ([4].take 1).Nodup ∧
      1 ≤ [4].length ∧ 1 ≤ [8].length ∧
      (EEPROM_saveVars [4] [8] 1 c6base []).1 = EEPROM_OK) ∧
    ((liveLowIds (EEPROM_saveVar 3 9 c6base []).2.1).Nodup ∧
      (liveLowIds (EEPROM_saveVars [4] [8] 1 c6base []).2.1).Nodup ∧
      (3 ∈ liveLowIds c6base →
        (liveLowIds (EEPROM_saveVar 3 9 c6base []).2.1).length ≤
          (liveLowIds c6base).length)) :=
  ⟨⟨by decide, by decide, by decide, by decide, by decide, by decide,
      by decide, by decide⟩,
    C5_at_most_one_live_per_id c6base [] [] 3 9 1 [4] [8] (by decide)
      (by decide) (by decide) (by decide) (by decide) (by decide) (by decide)
      (by decide)⟩

theorem findVarLoop_found_valid (id : Nat) (f : Flash) : ∀ (n off a : Nat),
    findVarLoop id f off n = some a →
    readHW f a % 256 = id ∧
    readHW f (a+2) = EEPROM_calcCRC (readHW f a) (readHW f (a+1)) := by
  intro n
  induction n with
  | zero => intro off a h; simp [findVarLoop] at h
  | succ n ih =>
    intro off a h
    simp only [findVarLoop] at h
    by_cases hFF : readHW f off = 0xFFFF
    · rw [if_pos hFF] at h
      exact absurd h (by simp)
    · rw [if_neg hFF] at h
      by_cases hm : readHW f off % 256 = id ∧ readHW f (off+2) =
          EEPROM_calcCRC (readHW f off) (readHW f (off+1))
      · rw [if_pos hm] at h
        rcases Option.some.inj h with rfl
        exact hm
      · rw [if_neg hm] at h
        exact ih (off+3) a h

/-- C6: entries whose Check half-word does not equal xor(Id, Value) are
invisible — EEPROM_findVar only ever returns an entry whose low 8 Id bits
match the requested id and whose Check verifies, EEPROM_readVar and
EEPROM_varExists delegate to it, and the collection scans of both save
operations keep exactly the CRC-valid entries that are not superseded
(scanValidList holds only entries passing the Check). -/
theorem C6_invalid_entries_invisible (f : Flash) (id a : Nat)
    (hfound : EEPROM_findVar id f = some a) :
    (readHW f a % 256 = id ∧
      readHW f (a+2) = EEPROM_calcCRC (readHW f a) (readHW f (a+1))) ∧
    EEPROM_readVar id f = readHW f (a+1) ∧
    EEPROM_varExists id f = true ∧
    (∀ tgt, scanLoop tgt f 2 10 =
      (scanValidList f).filter (fun p => !(p.1 == tgt))) ∧
    (∀ newIds, scanLoopMulti newIds f 2 10 =
      (scanValidList f).filter (fun p => !(newIds.contains p.1))) := by
  refine ⟨?_, ?_, ?_, fun tgt => scanLoop_eq tgt f,
    fun newIds => scanLoopMulti_eq newIds f⟩
  · rw [EEPROM_findVar] at hfound
    by_cases hi : EEPROM_isInitialized f
    · rw [if_pos hi] at hfound
      exact findVarLoop_found_valid id f 10 2 a hfound
    · rw [if_neg hi] at hfound
      exact absurd hfound (by simp)
  · rw [EEPROM_readVar, hfound]
  · rw [EEPROM_varExists, hfound]
    rfl

theorem C6_invalid_entries_invisible_witness :
    EEPROM_findVar 3 c6base = some 2 ∧
    ((readHW c6base 2 % 256 = 3 ∧
      readHW c6base (2+2) =
        EEPROM_calcCRC (readHW c6base 2) (readHW c6base (2+1))) ∧
    EEPROM_readVar 3 c6base = readHW c6base (2+1) ∧
    EEPROM_varExists 3 c6base = true ∧
    (∀ tgt, scanLoop tgt c6base 2 10 =
      (scanValidList c6base).filter (fun p => !(p.1 == tgt))) ∧
    (∀ newIds, scanLoopMulti newIds c6base 2 10 =
      (scanValidList c6base).filter (fun p => !(newIds.contains p.1)))) :=
  ⟨by decide, C6_invalid_entries_invisible c6base 3 2 (by decide)⟩

/-- C7: a successful EEPROM_format leaves the region uninitialized, every
EEPROM_readVar returns the 0xFFFF sentinel, every EEPROM_varExists is
false, and the first half-word of the region reads back as the
fully-erased pattern 0xFFFF (format fails otherwise). -/
theorem C7_format_uninitializes (f : Flash) (o : Oracle)
    (hok : (EEPROM_format f o).1 = EEPROM_OK) :
    EEPROM_isInitialized (EEPROM_format f o).2.1 = false ∧
    (∀ id, EEPROM_readVar id (EEPROM_format f o).2.1 = 0xFFFF) ∧
    (∀ id, EEPROM_varExists id (EEPROM_format f o).2.1 = false) ∧
    readHW (EEPROM_format f o).2.1 0 = 0xFFFF := by
  rcases format_cases f o with h | h <;> rw [h] at hok ⊢
  · exact ⟨rfl, fun id => rfl, fun id => rfl, rfl⟩
  · exact absurd hok (by simp [EEPROM_ERROR, EEPROM_OK])

theorem C7_format_uninitializes_witness :
    (EEPROM_format c6base []).1 = EEPROM_OK ∧
    (EEPROM_isInitialized (EEPROM_format c6base []).2.1 = false ∧
      (∀ id, EEPROM_readVar id (EEPROM_format c6base []).2.1 = 0xFFFF) ∧
      (∀ id, EEPROM_varExists id (EEPROM_format c6base []).2.1 = false) ∧
      readHW (EEPROM_format c6base []).2.1 0 = 0xFFFF) :=
  ⟨by decide, C7_format_uninitializes c6base [] (by decide)⟩

/-- C8: during the rewrite phase of EEPROM_saveVar and EEPROM_saveVars (the
header having been written, modelled by the three leading successes), the
failure of the (m+1)-th half-word program makes the operation return
EEPROM_ERROR at once: exactly the first m half-words of the entry stream
were programmed, no later half-word is written, the failure is not
retried (the remaining oracle is returned untouched), and the region is
left in that partially-written state. -/
theorem C8_write_failure_aborts (f : Flash) (id v count m1 m2 : Nat)
    (ids values : List Nat) (o1 o2 : Oracle)
    (hinit : EEPROM_isInitialized f = true)
    (hm1 : m1 < 3 * (saveVarVars id v f).length)
    (hm2 : m2 < 3 * (saveVarsVars ids values count f).length) :
    EEPROM_saveVar id v f
        (true :: true :: true :: (List.replicate m1 true ++ false :: o1)) =
      (EEPROM_ERROR,
        multiWrite headerFlash 2 ((flatPairs (saveVarVars id v f)).take m1),
        o1) ∧
    EEPROM_saveVars ids values count f
        (true :: true :: true :: (List.replicate m2 true ++ false :: o2)) =
      (EEPROM_ERROR,
        multiWrite headerFlash 2
          ((flatPairs (saveVarsVars ids values count f)).take m2), o2) := by
  constructor
  · rw [saveVar_failWrites id v f _ hinit,
      writeEntriesLoop_fail o1 (saveVarVars id v f) m1 2 headerFlash hm1]
  · rw [saveVars_failWrites ids values count f _ hinit,
      writeEntriesLoop_fail o2 (saveVarsVars ids values count f) m2 2
        headerFlash hm2]

theorem C8_write_failure_aborts_witness :
    EEPROM_isInitialized c6base = true ∧
    0 < 3 * (saveVarVars 4 1 c6base).length ∧
    1 < 3 * (saveVarsVars [5] [6] 1 c6base).length ∧
    (EEPROM_saveVar 4 1 c6base
        (true :: true :: true :: (List.replicate 0 true ++ false :: [])) =
      (EEPROM_ERROR,
        multiWrite headerFlash 2 ((flatPairs (saveVarVars 4 1 c6base)).take 0),
        []) ∧
    EEPROM_saveVars [5] [6] 1 c6base
        (true :: true :: true :: (List.replicate 1 true ++ false :: [])) =
      (EEPROM_ERROR,
        multiWrite headerFlash 2
          ((flatPairs (saveVarsVars [5] [6] 1 c6base)).take 1), [])) :=
  ⟨by decide, by decide, by decide,
    C8_write_failure_aborts c6base 4 1 1 0 1 [5] [6] [] [] (by decide)
      (by decide) (by decide)⟩

/-- C9: after a successful EEPROM_saveVar (id below 256, as the uint8
parameter type enforces) or EEPROM_saveVars (all used ids below 256), the
Id half-word of every written entry slot is below 0x100, because the
working set keeps only the low 8 bits of each scanned id, and hence never
equals the 0xFFFF end-of-data sentinel. -/
theorem C9_written_ids_are_bytes (f : Flash) (o o2 : Oracle)
    (id v count : Nat) (ids values : List Nat)
    (hid : id < 256)
    (hok : (EEPROM_saveVar id v f o).1 = EEPROM_OK)
    (hids : ∀ x ∈ ids.take count, x < 256)
    (hok2 : (EEPROM_saveVars ids values count f o2).1 = EEPROM_OK) :
    (∀ i < (saveVarVars id v f).length,
      readHW (EEPROM_saveVar id v f o).2.1 (2+3*i) < 256 ∧
      readHW (EEPROM_saveVar id v f o).2.1 (2+3*i) ≠ 0xFFFF) ∧
    (∀ i < (saveVarsVars ids values count f).length,
      readHW (EEPROM_saveVars ids values count f o2).2.1 (2+3*i) < 256 ∧
      readHW (EEPROM_saveVars ids values count f o2).2.1 (2+3*i) ≠ 0xFFFF) := by
  rw [saveVar_ok id v f o hok, saveVars_ok ids values count f o2 hok2]
  constructor
  · intro i hi
    rw [writtenFlash_slotId _ i hi]
    have hmem : (saveVarVars id v f).getD i (0,0) ∈ saveVarVars id v f := by
      rw [List.getD_eq_getElem _ (0,0) hi]
      exact List.getElem_mem hi
    have hlt := saveVarVars_fst_lt id v f hid _ hmem
    exact ⟨hlt, by omega⟩
  · intro i hi
    rw [writtenFlash_slotId _ i hi]
    have hmem : (saveVarsVars ids values count f).getD i (0,0) ∈
        saveVarsVars ids values count f := by
      rw [List.getD_eq_getElem _ (0,0) hi]
      exact List.getElem_mem hi
    have hlt := saveVarsVars_fst_lt ids values count f hids _ hmem
    exact ⟨hlt, by omega⟩

theorem C9_written_ids_are_bytes_witness :
    (4:Nat) < 256 ∧ (EEPROM_saveVar 4 1 c6base []).1 = EEPROM_OK ∧
    (∀ x ∈ [5].take 1, x < 256) ∧
    (EEPROM_saveVars [5] [6] 1 c6base []).1 = EEPROM_OK ∧
    ((∀ i < (saveVarVars 4 1 c6base).length,
      readHW (EEPROM_saveVar 4 1 c6base []).2.1 (2+3*i) < 256 ∧
      readHW (EEPROM_saveVar 4 1 c6base []).2.1 (2+3*i) ≠ 0xFFFF) ∧
    (∀ i < (saveVarsVars [5] [6] 1 c6base).length,
      readHW (EEPROM_saveVars [5] [6] 1 c6base []).2.1 (2+3*i) < 256 ∧
      readHW (EEPROM_saveVars [5] [6] 1 c6base []).2.1 (2+3*i) ≠ 0xFFFF)) :=
  ⟨by decide, by decide, by decide, by decide,
    C9_written_ids_are_bytes c6base [] [] 4 1 1 [5] [6] (by decide)
      (by decide) (by decide) (by decide)⟩

theorem findVarLoop_st_eq (id : Nat) : ∀ (n off : Nat) (f : Flash),
    findVarLoop_st id off n f = (findVarLoop id f off n, f) := by
  intro n
  induction n with
  | zero => intro off f; rfl
  | succ n ih =>
    intro off f
    simp only [findVarLoop_st, findVarLoop, readHW_st, readHW]
    by_cases h1 : f off = 0xFFFF
    · rw [if_pos h1, if_pos h1]
    · rw [if_neg h1, if_neg h1]
      by_cases h2 : f off % 256 = id ∧ f (off+2) =
          EEPROM_calcCRC (f off) (f (off+1))
      · rw [if_pos h2, if_pos h2]
      · rw [if_neg h2, if_neg h2, ih]

/-- C10: the read-path operations perform no store: threading the region
state through every volatile access, EEPROM_findVar, EEPROM_readVar,
EEPROM_varExists and EEPROM_isInitialized return the region exactly as it
was, and their results agree with the direct reading functions. -/
theorem C10_read_ops_leave_region_unchanged (id : Nat) (f : Flash) :
    (EEPROM_isInitialized_st f).2 = f ∧
    (EEPROM_findVar_st id f).2 = f ∧
    (EEPROM_readVar_st id f).2 = f ∧
    (EEPROM_varExists_st id f).2 = f ∧
    (EEPROM_isInitialized_st f).1 = EEPROM_isInitialized f ∧
    (EEPROM_findVar_st id f).1 = EEPROM_findVar id f ∧
    (EEPROM_readVar_st id f).1 = EEPROM_readVar id f ∧
    (EEPROM_varExists_st id f).1 = EEPROM_varExists id f := by
  have hfind : EEPROM_findVar_st id f = (EEPROM_findVar id f, f) := by
    rw [EEPROM_findVar_st, EEPROM_findVar]
    simp only [EEPROM_isInitialized_st, EEPROM_isInitialized, readHW_st,
      readHW]
    by_cases hi : (f 0 == EEPROM_MARKER) = true
    · rw [if_pos hi, if_pos hi, findVarLoop_st_eq]
    · rw [if_neg hi, if_neg hi]
  have hread : EEPROM_readVar_st id f = (EEPROM_readVar id f, f) := by
    rw [EEPROM_readVar_st]
    rw [EEPROM_readVar]
    cases h : EEPROM_findVar id f with
    | none =>
      rw [hfind, h]
    | some a =>
      rw [hfind, h]
      rfl
  have hex : EEPROM_varExists_st id f = (EEPROM_varExists id f, f) := by
    rw [EEPROM_varExists_st, hfind, EEPROM_varExists]
  refine ⟨rfl, ?_, ?_, ?_, rfl, ?_, ?_, ?_⟩
  · rw [hfind]
  · rw [hread]
  · rw [hex]
  · rw [hfind]
  · rw [hread]
  · rw [hex]
